import Mathlib

/-!
Verification of the sentence-selection / inverted-indexing engine and the
word-normalization engine of the logos-app pipeline.

The Lean definitions below are a shallow embedding of the Python sources:
  * `ExtractSentences.*` embeds `src/pipeline/scripts/extract_sentences.py`
  * `WordForms.*` embeds `src/pipeline/vocabulary/scripts/word_forms.py`
  * `ExtractWords.*` embeds `src/pipeline/vocabulary/scripts/extract_words.py`

Python strings are `String`, Python lists are `List`, Python dicts are
association lists (`List (k × v)`, key order = insertion order, as in CPython),
Python sets that the code only iterates or tests membership on are `List`s
with membership semantics.  Machine-level details (Unicode classes beyond the
characters the code actually manipulates) are modelled for the ASCII range the
pipeline operates on.
-/

set_option autoImplicit false
set_option maxRecDepth 8000

/-- Python `w.endswith(s)`.  (`String.endsWith` of core is implemented with
well-founded recursion over byte positions, which the kernel will not unfold,
so we use the equivalent structural suffix test on the character lists.) -/
def strEndsWith (w s : String) : Bool := s.data.isSuffixOf w.data

/-- Python `w[:-n]` for `n ≤ len(w)`: drop the last `n` characters. -/
def strDropRight (w : String) (n : Nat) : String := ⟨w.data.take (w.data.length - n)⟩

namespace ExtractSentences

/-! Configuration constants from `extract_sentences.py` lines 18-21. -/

def MIN_SENTENCES_PER_WORD : Nat := 2
def MAX_SENTENCES_PER_WORD : Nat := 5
def MAX_SENTENCE_LENGTH : Nat := 200
def MIN_SENTENCE_LENGTH : Nat := 30

/-! Morphology: `get_word_variants` from `extract_sentences.py` lines 52-90. -/

/-- The Python test `c in "aeiou"`. -/
def isVowel (c : Char) : Bool := "aeiou".data.contains c

/-- Python `word[-2]` for a string of length at least 2: second-to-last char. -/
def secondLast (w : String) : Char := w.data.getD (w.data.length - 2) 'A'

/-- Python `word.endswith(("s", "x", "z", "ch", "sh"))`. -/
def endsSxzChSh (w : String) : Bool :=
  strEndsWith w "s" || strEndsWith w "x" || strEndsWith w "z" || strEndsWith w "ch" ||
    strEndsWith w "sh"

/-- Python `word.endswith("y") and len(word) > 1 and word[-2] not in "aeiou"`. -/
def consonantY (w : String) : Bool :=
  strEndsWith w "y" && decide (1 < w.length) && !(isVowel (secondLast w))

/-- Plural block of `get_word_variants` (lines 63-70): guarded by
`if not word.endswith("s")`, so the `"s"` member of the tuple test is dead. -/
def pluralVariants (w : String) : List String :=
  if !(strEndsWith w "s") then
    if endsSxzChSh w then [w ++ "es"]
    else if consonantY w then [strDropRight w 1 ++ "ies"]
    else [w ++ "s"]
  else []

/-- Past-tense block of `get_word_variants` (lines 72-79).  The identical code
also appears in `word_forms.py` lines 122-129. -/
def pastVariants (w : String) : List String :=
  if !(strEndsWith w "ed") then
    if strEndsWith w "e" then [w ++ "d"]
    else if consonantY w then [strDropRight w 1 ++ "ied"]
    else [w ++ "ed"]
  else []

/-- Progressive block of `get_word_variants` (lines 81-88). -/
def progVariants (w : String) : List String :=
  if !(strEndsWith w "ing") then
    if strEndsWith w "e" && !(strEndsWith w "ee") then [strDropRight w 1 ++ "ing"]
    else if strEndsWith w "ie" then [strDropRight w 2 ++ "ying"]
    else [w ++ "ing"]
  else []

/-- `get_word_variants` from `extract_sentences.py` lines 52-90.  The Python
function returns a set initialised with `{word}`; we return the list of
`add` calls in program order (membership is what all callers consume). -/
def get_word_variants (w : String) : List String :=
  if w.length < 2 then [w]
  else [w] ++ pluralVariants w ++ pastVariants w ++ progVariants w

end ExtractSentences

namespace WordForms

/-- `IRREGULAR_VERBS` from `word_forms.py` lines 11-82 (the literal dict has
the key `"strung"` twice with the same value; a dict keeps one entry). -/
def IRREGULAR_VERBS : List (String × List String) := [
  ("be", ["was", "were", "been", "being", "am", "is", "are"]),
  ("have", ["has", "had", "having"]),
  ("do", ["does", "did", "done", "doing"]),
  ("go", ["goes", "went", "gone", "going"]),
  ("say", ["says", "said", "saying"]),
  ("make", ["makes", "made", "making"]),
  ("take", ["takes", "took", "taken", "taking"]),
  ("come", ["comes", "came", "coming"]),
  ("see", ["sees", "saw", "seen", "seeing"]),
  ("know", ["knows", "knew", "known", "knowing"]),
  ("give", ["gives", "gave", "given", "giving"]),
  ("think", ["thinks", "thought", "thinking"]),
  ("tell", ["tells", "told", "telling"]),
  ("become", ["becomes", "became", "becoming"]),
  ("leave", ["leaves", "left", "leaving"]),
  ("put", ["puts", "putting"]),
  ("bring", ["brings", "brought", "bringing"]),
  ("keep", ["keeps", "kept", "keeping"]),
  ("hold", ["holds", "held", "holding"]),
  ("stand", ["stands", "stood", "standing"]),
  ("hear", ["hears", "heard", "hearing"]),
  ("let", ["lets", "letting"]),
  ("mean", ["means", "meant", "meaning"]),
  ("set", ["sets", "setting"]),
  ("meet", ["meets", "met", "meeting"]),
  ("run", ["runs", "ran", "running"]),
  ("pay", ["pays", "paid", "paying"]),
  ("sit", ["sits", "sat", "sitting"]),
  ("send", ["sends", "sent", "sending"]),
  ("fall", ["falls", "fell", "fallen", "falling"]),
  ("read", ["reads", "reading"]),
  ("grow", ["grows", "grew", "grown", "growing"]),
  ("lose", ["loses", "lost", "losing"]),
  ("spend", ["spends", "spent", "spending"]),
  ("cut", ["cuts", "cutting"]),
  ("build", ["builds", "built", "building"]),
  ("ride", ["rides", "rode", "ridden", "riding"]),
  ("hide", ["hides", "hid", "hidden", "hiding"]),
  ("bite", ["bites", "bit", "bitten", "biting"]),
  ("write", ["writes", "wrote", "written", "writing"]),
  ("drive", ["drives", "drove", "driven", "driving"]),
  ("rise", ["rises", "rose", "risen", "rising"]),
  ("choose", ["chooses", "chose", "chosen", "choosing"]),
  ("freeze", ["freezes", "froze", "frozen", "freezing"]),
  ("speak", ["speaks", "spoke", "spoken", "speaking"]),
  ("steal", ["steals", "stole", "stolen", "stealing"]),
  ("break", ["breaks", "broke", "broken", "breaking"]),
  ("wake", ["wakes", "woke", "woken", "waking"]),
  ("forget", ["forgets", "forgot", "forgotten", "forgetting"]),
  ("get", ["gets", "got", "gotten", "getting"]),
  ("begin", ["begins", "began", "begun", "beginning"]),
  ("sing", ["sings", "sang", "sung", "singing"]),
  ("ring", ["rings", "rang", "rung", "ringing"]),
  ("drink", ["drinks", "drank", "drunk", "drinking"]),
  ("swim", ["swims", "swam", "swum", "swimming"]),
  ("sink", ["sinks", "sank", "sunk", "sinking"]),
  ("shrink", ["shrinks", "shrank", "shrunk", "shrinking"]),
  ("stink", ["stinks", "stank", "stunk", "stinking"]),
  ("spring", ["springs", "sprang", "sprung", "springing"]),
  ("string", ["strings", "strung", "stringing"]),
  ("wring", ["wrings", "wrung", "wringing"]),
  ("cling", ["clings", "clung", "clinging"]),
  ("fling", ["flings", "flung", "flinging"]),
  ("sling", ["slings", "slung", "slinging"]),
  ("swing", ["swings", "swung", "swinging"]),
  ("hang", ["hangs", "hung", "hanging"]),
  ("bind", ["binds", "bound", "binding"]),
  ("find", ["finds", "found", "finding"]),
  ("wind", ["winds", "wound", "winding"]),
  ("ground", ["grounds", "grounded", "grounding"])]

/-- Plural block of `word_forms.get_word_variants` (lines 114-120): unlike the
`extract_sentences.py` revision there is no outer skip for words already
ending in `"s"` -- such a word receives `word + "es"`. -/
def pluralVariants (w : String) : List String :=
  if ExtractSentences.endsSxzChSh w then [w ++ "es"]
  else if ExtractSentences.consonantY w then [strDropRight w 1 ++ "ies"]
  else [w ++ "s"]

/-- Progressive block of `word_forms.get_word_variants` (lines 131-137): the
`endswith("ing")` guard sits on the last branch only. -/
def progVariants (w : String) : List String :=
  if strEndsWith w "e" && !(strEndsWith w "ee") then [strDropRight w 1 ++ "ing"]
  else if strEndsWith w "ie" then [strDropRight w 2 ++ "ying"]
  else if !(strEndsWith w "ing") then [w ++ "ing"]
  else []

/-- `get_word_variants` from `word_forms.py` lines 100-139 (set modelled as the
list of `add`/`update` calls in program order). -/
def get_word_variants (w : String) : List String :=
  if w.length < 2 then [w]
  else
    [w] ++ (IRREGULAR_VERBS.lookup w).getD [] ++ pluralVariants w
      ++ ExtractSentences.pastVariants w ++ progVariants w

end WordForms

/-- Python `s.lower()` (`String.toLower` of core iterates byte positions; we
map over the character list, which is the same function). -/
def strToLower (s : String) : String := ⟨s.data.map Char.toLower⟩

/-- Python `s.replace(" ", "-")`: for a single-character pattern, replacing
every occurrence is a character-wise map. -/
def spaceToHyphen (s : String) : String := ⟨s.data.map (fun c => if c = ' ' then '-' else c)⟩

/-- Python dict assignment `m[k] = v` on a dict modelled as an association
list: overwrite in place if the key exists, else append. -/
def assign {α : Type} (m : List (String × α)) (k : String) (v : α) : List (String × α) :=
  if (m.lookup k).isSome then m.map (fun p => if p.1 = k then (k, v) else p) else m ++ [(k, v)]

namespace ExtractSentences

/-! The inverted index: `build_inverted_index`, `extract_sentences.py`
lines 100-160. -/

/-- One entry of a `word_to_sentences` candidate list (line 151-155). -/
structure Candidate where
  id : String
  length : Nat
  book : String
deriving DecidableEq, Repr

/-- `generate_sentence_id` (lines 46-49). -/
def generate_sentence_id (book chapter verse : String) : String :=
  spaceToHyphen (strToLower book) ++ "-" ++ chapter ++ "-" ++ verse

/-- Loop body of the variant-map construction (lines 111-116), for a single
variant of `word`:
first `if variant not in all_variants: all_variants[variant] = word`,
then `if variant == word: all_variants[variant] = word`. -/
def insertOne (word : String) (m : List (String × String)) (variant : String) :
    List (String × String) :=
  let m1 := if (m.lookup variant).isSome then m else m ++ [(variant, word)]
  if variant = word then assign m1 variant word else m1

/-- Lines 111-116 for one vocabulary word: fold `insertOne` over its variants. -/
def insertVariants (m : List (String × String)) (word : String) : List (String × String) :=
  (get_word_variants word).foldl (insertOne word) m

/-- The reverse variant-to-word map `all_variants` built by
`build_inverted_index` (lines 109-116).  The Python `vocabulary_words` set is
iterated in a fixed order, modelled by the list order here. -/
def build_all_variants (vocabulary_words : List String) : List (String × String) :=
  vocabulary_words.foldl insertVariants []

/-! Tokenization `extract_words_from_text` (lines 93-97):
`re.findall(r"\b[a-zA-Z]+\b", text.lower())` collected into a set.
The regex matches the maximal ASCII-letter runs whose neighbours (if any) are
not word characters; the set is modelled as the deduplicated match list. -/

def isAsciiAlpha (c : Char) : Bool :=
  (decide ('a' ≤ c) && decide (c ≤ 'z')) || (decide ('A' ≤ c) && decide (c ≤ 'Z'))

/-- A character of the regex class `\w` (over the ASCII range the corpus uses). -/
def isWordChar (c : Char) : Bool := isAsciiAlpha c || c.isDigit || c == '_'

/-- Scanner state: finished matches, the current letter run, whether the run
started at a word boundary, and whether a run starting at the next character
would start at a word boundary. -/
structure ScanState where
  toks : List String
  run : List Char
  runOk : Bool
  nextOk : Bool

def scanStep (st : ScanState) (c : Char) : ScanState :=
  if isAsciiAlpha c then
    if st.run.isEmpty then { st with run := [c], runOk := st.nextOk }
    else { st with run := st.run ++ [c] }
  else
    { toks :=
        if !st.run.isEmpty && st.runOk && !(isWordChar c) then st.toks ++ [String.mk st.run]
        else st.toks,
      run := [], runOk := false, nextOk := !(isWordChar c) }

def scanFinish (st : ScanState) : List String :=
  if !st.run.isEmpty && st.runOk then st.toks ++ [String.mk st.run] else st.toks

/-- All matches of `\b[a-zA-Z]+\b` in `t`, in order. -/
def findAlphaTokens (t : String) : List String :=
  scanFinish (t.data.foldl scanStep ⟨[], [], true, true⟩)

/-- `extract_words_from_text` (lines 93-97); the returned Python set is the
deduplicated match list. -/
def extract_words_from_text (text : String) : List String :=
  (findAlphaTokens (strToLower text)).dedup

/-- The verse store entry (lines 137-142). -/
structure SentenceInfo where
  text : String
  ref : String
  book : String
  length : Nat
deriving DecidableEq, Repr

/-- One corpus verse, with its position. -/
structure Verse where
  book : String
  chapter : String
  verse : String
  text : String
deriving DecidableEq, Repr

/-- The state built by the corpus scan of `build_inverted_index`:
`word_to_sentences` (a `defaultdict(list)`) and `all_sentences`. -/
structure IndexState where
  word_to_sentences : List (String × List Candidate)
  all_sentences : List (String × SentenceInfo)
deriving DecidableEq, Repr

/-- `word_to_sentences[k].append(c)` on a `defaultdict(list)`. -/
def appendCandidate (m : List (String × List Candidate)) (k : String) (c : Candidate) :
    List (String × List Candidate) :=
  if (m.lookup k).isSome then m.map (fun p => if p.1 = k then (p.1, p.2 ++ [c]) else p)
  else m ++ [(k, [c])]

/-- Body of the corpus scan (lines 125-155) for one verse. -/
def processVerse (all_variants : List (String × String)) (st : IndexState) (v : Verse) :
    IndexState :=
  let length := v.text.length
  if MAX_SENTENCE_LENGTH < length ∨ length < MIN_SENTENCE_LENGTH then st
  else
    let sentence_id := generate_sentence_id v.book v.chapter v.verse
    let all_sentences := assign st.all_sentences sentence_id
      ⟨v.text, v.book ++ " " ++ v.chapter ++ ":" ++ v.verse, v.book, length⟩
    let word_to_sentences := (extract_words_from_text v.text).foldl
      (fun m sent_word =>
        match all_variants.lookup sent_word with
        | some original_word => appendCandidate m original_word ⟨sentence_id, length, v.book⟩
        | none => m)
      st.word_to_sentences
    ⟨word_to_sentences, all_sentences⟩

/-- A Bible: books of chapters of verses, each level in iteration order. -/
abbrev Bible := List (String × List (String × List (String × String)))

/-- The verses of the corpus in the order of the triple-nested loop
(lines 125-127). -/
def allVerses (bible : Bible) : List Verse :=
  bible.flatMap fun bk => bk.2.flatMap fun ch => ch.2.map fun vs => ⟨bk.1, ch.1, vs.1, vs.2⟩

/-- `build_inverted_index` (lines 100-160). -/
def build_inverted_index (bible : Bible) (vocabulary_words : List String) : IndexState :=
  (allVerses bible).foldl (processVerse (build_all_variants vocabulary_words)) ⟨[], []⟩

/-! The sentence selector: `select_sentences_for_word` (lines 163-190). -/

/-- The first component of the Python sort key `x["id"] in used_sentences`,
with `False < True` rendered as `0 < 1`. -/
def usedFlag (used_sentences : List String) (c : Candidate) : Nat :=
  if c.id ∈ used_sentences then 1 else 0

/-- The comparison realised by the Python key
`(x["id"] in used_sentences, x["length"])`. -/
def candLE (used_sentences : List String) (c d : Candidate) : Prop :=
  usedFlag used_sentences c < usedFlag used_sentences d ∨
    (usedFlag used_sentences c = usedFlag used_sentences d ∧ c.length ≤ d.length)

instance candLEDec (used_sentences : List String) : DecidableRel (candLE used_sentences) :=
  fun _ _ => by unfold candLE; infer_instance

/-- Line 169, `candidates.sort(key=lambda x: (x["id"] in used_sentences,
x["length"]))`.  Python `list.sort` is a stable sort; a stable sort by a total
preorder has a unique result, which insertion sort by the same preorder
computes. -/
def sortCandidates (used_sentences : List String) (candidates : List Candidate) :
    List Candidate :=
  candidates.insertionSort (candLE used_sentences)

/-- First pass (lines 175-181): pick at most one candidate per book, stopping
at `MAX_SENTENCES_PER_WORD`. -/
def firstPass : List Candidate → List String → List String → List String
  | [], selected, _ => selected
  | c :: rest, selected, selected_books =>
    if MAX_SENTENCES_PER_WORD ≤ selected.length then selected
    else if c.book ∈ selected_books then firstPass rest selected selected_books
    else firstPass rest (selected ++ [c.id]) (selected_books ++ [c.book])

/-- Second pass (lines 183-188): fill remaining slots with any candidate whose
id is not selected yet. -/
def secondPass : List Candidate → List String → List String
  | [], selected => selected
  | c :: rest, selected =>
    if MAX_SENTENCES_PER_WORD ≤ selected.length then selected
    else if c.id ∈ selected then secondPass rest selected
    else secondPass rest (selected ++ [c.id])

/-- `select_sentences_for_word` (lines 163-190). -/
def select_sentences_for_word (candidates : List Candidate) (used_sentences : List String) :
    List String :=
  if candidates.isEmpty then []
  else
    let sorted := sortCandidates used_sentences candidates
    secondPass sorted (firstPass sorted [] [])

/-! The per-word loop of `extract_sentences` (lines 193-254). -/

/-- The mutable state threaded through the loop over vocabulary words:
the shared `used_sentences` set, the `output_sentences` store (primary keys
only; the stored values are pure lookups of `all_sentences`, see lines
222-228), and the `sentence_ids` recorded per word. -/
structure ExtractState where
  used_sentences : List String
  output_sentences : List String
  results : List (String × List String)
deriving DecidableEq, Repr

/-- Lines 222-229: for each selected id, add it to the output store if absent
and mark it used. -/
def recordSelected (st : ExtractState) (ids : List String) : ExtractState :=
  ids.foldl
    (fun s sid =>
      { s with
        output_sentences :=
          if sid ∈ s.output_sentences then s.output_sentences else s.output_sentences ++ [sid],
        used_sentences :=
          if sid ∈ s.used_sentences then s.used_sentences else s.used_sentences ++ [sid] })
    st

/-- Loop body of `extract_sentences` (lines 211-236) for one vocabulary word. -/
def processWord (index : String → List Candidate) (st : ExtractState) (word : String) :
    ExtractState :=
  let sentence_ids := select_sentences_for_word (index word) st.used_sentences
  if MIN_SENTENCES_PER_WORD ≤ sentence_ids.length then
    let st' := recordSelected st sentence_ids
    { st' with results := st'.results ++ [(word, sentence_ids)] }
  else
    { st with results := st.results ++ [(word, [])] }

/-- The loop of `extract_sentences` (lines 204-236), abstracted over the
candidate index (`word_to_sentences.get(word, [])`). -/
def extract_sentences (index : String → List Candidate) (words : List String) : ExtractState :=
  words.foldl (processWord index) ⟨[], [], []⟩

/-- `extract_sentences` composed with `build_inverted_index` as in the source
(lines 193-213). -/
def extract_sentences_pipeline (bible : Bible) (words : List String) : ExtractState :=
  let ist := build_inverted_index bible words
  extract_sentences (fun w => (ist.word_to_sentences.lookup w).getD []) words

end ExtractSentences

namespace ExtractWords

/-- `LEMMA_EXCEPTIONS` from `extract_words.py` lines 19-80 (the literal dict
repeats the key `"strung"` with the same value; a dict keeps one entry). -/
def LEMMA_EXCEPTIONS : List (String × String) := [
  ("ground", "ground"),
  ("riding", "ride"), ("ridden", "ride"), ("rode", "ride"),
  ("hidden", "hide"), ("hid", "hide"),
  ("bitten", "bite"), ("bit", "bite"),
  ("written", "write"), ("wrote", "write"),
  ("driven", "drive"), ("drove", "drive"),
  ("risen", "rise"), ("rose", "rise"),
  ("chosen", "choose"), ("chose", "choose"),
  ("frozen", "freeze"), ("froze", "freeze"),
  ("spoken", "speak"), ("spoke", "speak"),
  ("stolen", "steal"), ("stole", "steal"),
  ("broken", "break"), ("broke", "break"),
  ("woken", "wake"), ("woke", "wake"),
  ("forgotten", "forget"), ("forgot", "forget"),
  ("gotten", "get"),
  ("begun", "begin"), ("began", "begin"),
  ("sung", "sing"), ("sang", "sing"),
  ("rung", "ring"), ("rang", "ring"),
  ("drunk", "drink"), ("drank", "drink"),
  ("swum", "swim"), ("swam", "swim"),
  ("sunk", "sink"), ("sank", "sink"),
  ("shrunk", "shrink"), ("shrank", "shrink"),
  ("stunk", "stink"), ("stank", "stink"),
  ("sprung", "spring"), ("sprang", "spring"),
  ("strung", "string"),
  ("wrung", "wring"),
  ("clung", "cling"),
  ("flung", "fling"),
  ("slung", "sling"),
  ("swung", "swing"),
  ("hung", "hang"),
  ("bound", "bind"),
  ("found", "find"),
  ("wound", "wind")]

/-! `is_numeric_word` from `extract_words.py` lines 113-130. -/

/-- Python `word.isdigit()`: nonempty and all digits. -/
def isDigitStr (w : String) : Bool := !w.data.isEmpty && w.data.all (·.isDigit)

/-- The regex `^\d+(st|nd|rd|th)$` of line 120. -/
def isOrdinal (w : String) : Bool :=
  (strEndsWith w "st" || strEndsWith w "nd" || strEndsWith w "rd" || strEndsWith w "th")
    && isDigitStr (strDropRight w 2)

/-- The character class `[½¼¾⅓⅔⅛⅜⅝⅞]` of line 123. -/
def FRACTION_GLYPHS : List Char := ['½', '¼', '¾', '⅓', '⅔', '⅛', '⅜', '⅝', '⅞']

/-- `re.search(r"\d+[½¼¾⅓⅔⅛⅜⅝⅞]", w)`: some digit immediately followed by a
fraction glyph. -/
def hasDigitFraction : List Char → Bool
  | c1 :: c2 :: rest => (c1.isDigit && FRACTION_GLYPHS.contains c2) || hasDigitFraction (c2 :: rest)
  | _ => false

/-- The character class `[ivxlcdm]` of line 126. -/
def ROMAN_CHARS : List Char := ['i', 'v', 'x', 'l', 'c', 'd', 'm']

/-- Every word matched by the anchored alternation of line 128,
`^(i{1,3}|iv|v|vi{0,3}|ix|x{1,3}|xl|l|lx{0,3}|xc|c{1,3}|cd|d|dc{0,3}|cm|m{1,3})$`:
each bounded repetition is expanded (overlapping alternatives such as the bare
`v`, `l`, `d` listed once). -/
def STRICT_ROMAN_FORMS : List String :=
  ["i", "ii", "iii", "iv", "v", "vi", "vii", "viii", "ix",
   "x", "xx", "xxx", "xl", "l", "lx", "lxx", "lxxx", "xc",
   "c", "cc", "ccc", "cd", "d", "dc", "dcc", "dccc", "cm",
   "m", "mm", "mmm"]

/-- `is_numeric_word` (lines 113-130).  The outer Roman check of line 126 is
`^[ivxlcdm]+$` together with `len(word) <= 4`; only when it passes is the
strict pattern of line 128 consulted. -/
def is_numeric_word (w : String) : Bool :=
  if isDigitStr w then true
  else if isOrdinal w then true
  else if hasDigitFraction w.data then true
  else if (!w.data.isEmpty && w.data.all ROMAN_CHARS.contains) && w.length ≤ 4 then
    STRICT_ROMAN_FORMS.contains w
  else false

/-- `lemmatize_word` (lines 133-155).  The WordNet lemmatizer is an external
dependency; its noun-mode and verb-mode lookups are injected as `nl` and `vl`.
The conditional mirrors the early returns of the Python: exception table
first; then the verb lemma when it changed, is longer than one character and
the noun lemma is unchanged or at most two characters; then the noun lemma
when it changed; else the verb lemma. -/
def lemmatize_word (nl vl : String → String) (word : String) : String :=
  match LEMMA_EXCEPTIONS.lookup word with
  | some base => base
  | none =>
    let noun_lemma := nl word
    let verb_lemma := vl word
    if (verb_lemma ≠ word ∧ 1 < verb_lemma.length) ∧
        (noun_lemma = word ∨ noun_lemma.length ≤ 2) then verb_lemma
    else if noun_lemma ≠ word then noun_lemma
    else verb_lemma

/-- Pointwise increment of a counter, `word_counts[k] += 1`. -/
def bump (f : String → Nat) (k : String) : String → Nat :=
  fun s => if s = k then f s + 1 else f s

/-- Inner loop body of `extract_words` (lines 171-177) for one token:
numeric tokens bump the skip tally and are not counted; all others are
lemmatized and counted.  State is `(word_counts, numeric_words_skipped)`. -/
def extract_words_step (nl vl : String → String) (st : (String → Nat) × Nat) (w : String) :
    (String → Nat) × Nat :=
  if is_numeric_word w then (st.1, st.2 + 1)
  else (bump st.1 (lemmatize_word nl vl w), st.2)

/-- The token loop of `extract_words` (lines 158-184) over the cleaned token
stream of the whole corpus. -/
def extract_words (nl vl : String → String) (tokens : List String) : (String → Nat) × Nat :=
  tokens.foldl (extract_words_step nl vl) (fun _ => 0, 0)

end ExtractWords


/-- The scenario candidate list of C1: five distinct locations in five
distinct books. -/
def scenarioCandidates : List ExtractSentences.Candidate :=
  [⟨"s1", 40, "b1"⟩, ⟨"s2", 41, "b2"⟩, ⟨"s3", 42, "b3"⟩, ⟨"s4", 43, "b4"⟩, ⟨"s5", 44, "b5"⟩]

/-! Association-list lemmas for the `all_variants` dict. -/

theorem lookup_append {α : Type} (m₁ m₂ : List (String × α)) (k : String) :
    (m₁ ++ m₂).lookup k =
      match m₁.lookup k with
      | some v => some v
      | none => m₂.lookup k := by
  induction m₁ with
  | nil => simp [List.lookup]
  | cons p t ih =>
    obtain ⟨a, b⟩ := p
    simp only [List.cons_append, List.lookup]
    cases hb : (k == a) <;> simp [ih]

theorem lookup_map_assign_self {α : Type} (m : List (String × α)) (k : String) (v : α) :
    (m.map fun p => if p.1 = k then (k, v) else p).lookup k =
      match m.lookup k with
      | some _ => some v
      | none => none := by
  induction m with
  | nil => simp [List.lookup]
  | cons p t ih =>
    obtain ⟨a, b⟩ := p
    simp only [List.map_cons]
    by_cases h : a = k
    · subst h
      rw [if_pos rfl]
      simp [List.lookup, ih]
    · rw [if_neg h]
      cases hb : (k == a) with
      | true => exact absurd (eq_of_beq hb).symm h
      | false => simp [List.lookup, hb, ih]

theorem lookup_map_assign_ne {α : Type} (m : List (String × α)) (k k' : String) (v : α)
    (h : k ≠ k') :
    (m.map fun p => if p.1 = k' then (k', v) else p).lookup k = m.lookup k := by
  induction m with
  | nil => simp [List.lookup]
  | cons p t ih =>
    obtain ⟨a, b⟩ := p
    simp only [List.map_cons]
    by_cases ha : a = k'
    · subst ha
      rw [if_pos rfl]
      have hb : (k == a) = false := beq_eq_false_iff_ne.mpr h
      simp [List.lookup, hb, ih]
    · rw [if_neg ha]
      cases hb : (k == a) <;> simp [List.lookup, hb, ih]

theorem lookup_assign_self {α : Type} (m : List (String × α)) (k : String) (v : α) :
    (assign m k v).lookup k = some v := by
  unfold assign
  by_cases h : (m.lookup k).isSome
  · rw [if_pos h, lookup_map_assign_self]
    obtain ⟨w, hw⟩ := Option.isSome_iff_exists.mp h
    rw [hw]
  · rw [if_neg h, lookup_append]
    rw [Option.not_isSome_iff_eq_none] at h
    rw [h]
    simp [List.lookup]

theorem lookup_assign_ne {α : Type} (m : List (String × α)) (k k' : String) (v : α)
    (h : k ≠ k') :
    (assign m k' v).lookup k = m.lookup k := by
  unfold assign
  by_cases hs : (m.lookup k').isSome
  · rw [if_pos hs, lookup_map_assign_ne m k k' v h]
  · rw [if_neg hs, lookup_append]
    have hb : (k == k') = false := beq_eq_false_iff_ne.mpr h
    cases hmk : m.lookup k with
    | some w => rfl
    | none => simp [List.lookup, hb]

/-- Effect of one `insertOne` call on an arbitrary key `u`: key `u` is (re)set
to `word` exactly when `u` is the inserted variant and is either fresh or
equal to `word` itself; every other key keeps its binding. -/
theorem insertOne_lookup (word : String) (m : List (String × String)) (variant u : String) :
    (ExtractSentences.insertOne word m variant).lookup u =
      if u = variant ∧ ((m.lookup u).isNone ∨ u = word) then some word else m.lookup u := by
  unfold ExtractSentences.insertOne
  by_cases huv : u = variant
  · subst huv
    by_cases hs : (m.lookup u).isSome
    · rw [if_pos hs]
      by_cases huw : u = word
      · subst huw
        rw [if_pos rfl, lookup_assign_self]
        have hc : (u = u ∧ ((m.lookup u).isNone ∨ u = u)) := ⟨rfl, Or.inr rfl⟩
        rw [if_pos hc]
      · rw [if_neg huw]
        have hnone : ¬ ((m.lookup u).isNone = true) := by
          intro hn
          rw [Option.isNone_iff_eq_none] at hn
          rw [hn] at hs
          simp at hs
        rw [if_neg (by tauto)]
    · rw [if_neg hs]
      have hnone : (m.lookup u).isNone := by
        rw [Option.not_isSome_iff_eq_none] at hs
        simp [hs]
      have hcond : (u = u ∧ ((m.lookup u).isNone ∨ u = word)) := ⟨rfl, Or.inl hnone⟩
      rw [if_pos hcond]
      by_cases huw : u = word
      · subst huw
        rw [if_pos rfl, lookup_assign_self]
      · rw [if_neg huw, lookup_append]
        rw [Option.not_isSome_iff_eq_none] at hs
        rw [hs]
        simp [List.lookup]
  · have hcond : ¬ (u = variant ∧ ((m.lookup u).isNone ∨ u = word)) := by tauto
    rw [if_neg hcond]
    have hb : (u == variant) = false := beq_eq_false_iff_ne.mpr huv
    by_cases hs : (m.lookup variant).isSome
    · rw [if_pos hs]
      by_cases hvw : variant = word
      · rw [if_pos hvw, lookup_assign_ne m u variant word huv]
      · rw [if_neg hvw]
    · rw [if_neg hs]
      by_cases hvw : variant = word
      · rw [if_pos hvw, lookup_assign_ne _ u variant word huv, lookup_append]
        cases hmk : m.lookup u with
        | some w => rfl
        | none => simp [List.lookup, hb]
      · rw [if_neg hvw, lookup_append]
        cases hmk : m.lookup u with
        | some w => rfl
        | none => simp [List.lookup, hb]

/-- Effect of processing one vocabulary word on an arbitrary key `u` of the
variant map. -/
theorem insertVariants_lookup (m : List (String × String)) (word u : String) :
    (ExtractSentences.insertVariants m word).lookup u =
      if u ∈ ExtractSentences.get_word_variants word ∧ ((m.lookup u).isNone ∨ u = word) then
        some word
      else m.lookup u := by
  unfold ExtractSentences.insertVariants
  generalize ExtractSentences.get_word_variants word = vs
  induction vs generalizing m with
  | nil => simp
  | cons v vs ih =>
    rw [List.foldl_cons, ih, insertOne_lookup]
    by_cases h3 : (List.lookup u m).isNone = true ∨ u = word
    · by_cases h1 : u = v
      · have hL1 : (if u = v ∧ ((List.lookup u m).isNone = true ∨ u = word)
            then some word else List.lookup u m) = some word := if_pos ⟨h1, h3⟩
        rw [hL1, if_pos (show u ∈ v :: vs ∧
          ((List.lookup u m).isNone = true ∨ u = word) from ⟨by simp [h1], h3⟩)]
        split <;> rfl
      · have hL1 : (if u = v ∧ ((List.lookup u m).isNone = true ∨ u = word)
            then some word else List.lookup u m) = List.lookup u m := if_neg (by tauto)
        rw [hL1]
        by_cases h2 : u ∈ vs
        · rw [if_pos ⟨h2, h3⟩, if_pos ⟨by simp [h2], h3⟩]
        · rw [if_neg (by tauto), if_neg (by simp [h1, h2])]
    · have hL1 : (if u = v ∧ ((List.lookup u m).isNone = true ∨ u = word)
          then some word else List.lookup u m) = List.lookup u m := if_neg (by tauto)
      rw [hL1]
      rw [if_neg (by tauto), if_neg (by tauto)]

/-- The base form is always one of its own variants (`variants = {word}` seed). -/
theorem self_mem_get_word_variants (w : String) : w ∈ ExtractSentences.get_word_variants w := by
  unfold ExtractSentences.get_word_variants
  split <;> simp

/-- Once a key of the variant map holds a value, later vocabulary words other
than the key itself never change it. -/
theorem lookup_preserved_over (ws : List String) (m : List (String × String)) (v x : String)
    (hm : m.lookup v = some x) (hws : ∀ u ∈ ws, v ≠ u) :
    (ws.foldl ExtractSentences.insertVariants m).lookup v = some x := by
  induction ws generalizing m with
  | nil => exact hm
  | cons u ws ih =>
    rw [List.foldl_cons]
    refine ih _ ?_ (fun z hz => hws z (by simp [hz]))
    rw [insertVariants_lookup]
    have hvu : v ≠ u := hws u (by simp)
    rw [if_neg (by simp [hm, hvu]), hm]

/-- Generalisation of the identity-precedence invariant to an arbitrary
accumulator. -/
theorem build_self_lookup_aux (ws : List String) (m : List (String × String)) (w : String)
    (h : w ∈ ws ∨ m.lookup w = some w) :
    (ws.foldl ExtractSentences.insertVariants m).lookup w = some w := by
  induction ws generalizing m with
  | nil => exact h.resolve_left (by simp)
  | cons u ws ih =>
    rw [List.foldl_cons]
    rcases h with h | h
    · rcases List.mem_cons.mp h with h | h
      · subst h
        refine ih _ (Or.inr ?_)
        rw [insertVariants_lookup, if_pos ⟨self_mem_get_word_variants w, Or.inr rfl⟩]
      · exact ih _ (Or.inl h)
    · refine ih _ (Or.inr ?_)
      rw [insertVariants_lookup]
      by_cases hc :
          w ∈ ExtractSentences.get_word_variants u ∧ ((m.lookup w).isNone ∨ w = u)
      · rcases hc.2 with hn | he
        · rw [h] at hn; simp at hn
        · subst he; rw [if_pos hc]
      · rw [if_neg hc]; exact h

/-- C4: identity precedence in the variant mapping.  For every word `w` of the
vocabulary given to `build_inverted_index`, the variant string equal to `w`
itself maps to `w` in the reverse variant-to-word map `all_variants`, even
when `w` is also a generated variant of a different vocabulary word:
self-identity wins every collision. -/
theorem identity_variant_precedence (vocabulary_words : List String) (w : String)
    (hw : w ∈ vocabulary_words) :
    (ExtractSentences.build_all_variants vocabulary_words).lookup w = some w :=
  build_self_lookup_aux vocabulary_words [] w (Or.inl hw)

/-- Witness for C4: `"dies"` is in the two-word vocabulary `["die", "dies"]`
and is also a generated variant of `"die"` (processed first); its identity
mapping still wins. -/
theorem identity_variant_precedence_witness :
    "dies" ∈ ExtractSentences.get_word_variants "die" ∧
      "dies" ∈ (["die", "dies"] : List String) ∧
      (ExtractSentences.build_all_variants ["die", "dies"]).lookup "dies" = some "dies" :=
  ⟨by decide, by decide, identity_variant_precedence ["die", "dies"] "dies" (by decide)⟩

/-- Counterexample to C3 as stated: `"die"` and `"dy"` both generate the
variant `"dies"`, which equals neither word; in the map built from the
vocabulary `["die", "dy"]` the collision resolves to `"die"`, the word written
FIRST, not to the word written last. -/
theorem variant_collision_last_write_counterexample :
    "dies" ∈ ExtractSentences.get_word_variants "die" ∧
      "dies" ∈ ExtractSentences.get_word_variants "dy" ∧
      "die" ≠ "dy" ∧ "dies" ≠ "die" ∧ "dies" ≠ "dy" ∧
      (ExtractSentences.build_all_variants ["die", "dy"]).lookup "dies" = some "die" ∧
      (ExtractSentences.build_all_variants ["die", "dy"]).lookup "dies" ≠ some "dy" := by
  decide

/-- C3 amended: when two distinct vocabulary words generate the same
surface-form variant and that variant equals neither word (nor any later
vocabulary word, and is unclaimed by the earlier vocabulary prefix), the
collision resolves to the word written FIRST: the
`if variant not in all_variants` guard makes the first write win, and only an
identity claim can overwrite an existing binding. -/
theorem variant_collision_first_write (pre post : List String) (w1 w2 v : String)
    (hpre : (pre.foldl ExtractSentences.insertVariants []).lookup v = none)
    (h1 : v ∈ ExtractSentences.get_word_variants w1)
    (h2 : v ∈ ExtractSentences.get_word_variants w2)
    (hv1 : v ≠ w1) (hv2 : v ≠ w2) (h12 : w1 ≠ w2) (hw2 : w2 ∈ post)
    (hpost : ∀ u ∈ post, v ≠ u) :
    (ExtractSentences.build_all_variants (pre ++ w1 :: post)).lookup v = some w1 := by
  unfold ExtractSentences.build_all_variants
  rw [List.foldl_append, List.foldl_cons]
  refine lookup_preserved_over post _ v w1 ?_ hpost
  rw [insertVariants_lookup]
  rw [if_pos ⟨h1, Or.inl (by simp [hpre])⟩]

/-- Witness for C3 amended, at the concrete collision of the counterexample. -/
theorem variant_collision_first_write_witness :
    (ExtractSentences.build_all_variants ([] ++ "die" :: ["dy"])).lookup "dies" = some "die" :=
  variant_collision_first_write [] ["dy"] "die" "dy" "dies" (by decide) (by decide) (by decide)
    (by decide) (by decide) (by decide) (by decide) (by decide)

/-- Counterexample to C5 as stated: for the s-ending lemma `"bus"`, the
`extract_sentences.py` revision adds no plural at all (so the claimed
"+es for s-endings" fails there), while the `word_forms.py` revision adds
`"buses"` (so the claimed skip rule fails there). -/
theorem plural_skip_rule_counterexample :
    strEndsWith "bus" "s" = true ∧
      "buses" ∉ ExtractSentences.get_word_variants "bus" ∧
      "buses" ∈ WordForms.get_word_variants "bus" := by decide

/-- C5 amended: the regular-plural rule differs between the two
`get_word_variants` revisions.  In `extract_sentences.py` the skip rule is
real: an s-ending lemma receives no plural variant, an x/z/ch/sh-ending lemma
receives `+es`, a consonant+y lemma receives `y→ies`, and every other lemma
receives `+s`.  In `word_forms.py` there is no skip rule: a lemma ending in
s, x, z, ch or sh (including s) receives `+es`, with the same ies/+s rules
otherwise.  Both functions are, for lemmas of length at least 2, the base form
followed by their plural, past and progressive blocks (plus the irregular
forms in `word_forms.py`). -/
theorem plural_rules (w : String) (hlen : 2 ≤ w.length) :
    (strEndsWith w "s" = true → ExtractSentences.pluralVariants w = []) ∧
    (strEndsWith w "s" = false → ExtractSentences.endsSxzChSh w = true →
      ExtractSentences.pluralVariants w = [w ++ "es"]) ∧
    (ExtractSentences.endsSxzChSh w = false → ExtractSentences.consonantY w = true →
      ExtractSentences.pluralVariants w = [strDropRight w 1 ++ "ies"] ∧
      WordForms.pluralVariants w = [strDropRight w 1 ++ "ies"]) ∧
    (ExtractSentences.endsSxzChSh w = false → ExtractSentences.consonantY w = false →
      ExtractSentences.pluralVariants w = [w ++ "s"] ∧
      WordForms.pluralVariants w = [w ++ "s"]) ∧
    (ExtractSentences.endsSxzChSh w = true → WordForms.pluralVariants w = [w ++ "es"]) ∧
    ExtractSentences.get_word_variants w =
      [w] ++ ExtractSentences.pluralVariants w ++ ExtractSentences.pastVariants w ++
        ExtractSentences.progVariants w ∧
    WordForms.get_word_variants w =
      [w] ++ (WordForms.IRREGULAR_VERBS.lookup w).getD [] ++ WordForms.pluralVariants w ++
        ExtractSentences.pastVariants w ++ WordForms.progVariants w := by
  have hnot2 : ¬ (w.length < 2) := Nat.not_lt.mpr hlen
  refine ⟨?_, ?_, ?_, ?_, ?_, ?_, ?_⟩
  · intro hs
    simp [ExtractSentences.pluralVariants, hs]
  · intro hs he
    simp [ExtractSentences.pluralVariants, hs, he]
  · intro he hc
    have hs : strEndsWith w "s" = false := by
      unfold ExtractSentences.endsSxzChSh at he
      cases h : strEndsWith w "s" with
      | false => rfl
      | true => rw [h] at he; simp at he
    exact ⟨by simp [ExtractSentences.pluralVariants, hs, he, hc],
      by simp [WordForms.pluralVariants, he, hc]⟩
  · intro he hc
    have hs : strEndsWith w "s" = false := by
      unfold ExtractSentences.endsSxzChSh at he
      cases h : strEndsWith w "s" with
      | false => rfl
      | true => rw [h] at he; simp at he
    exact ⟨by simp [ExtractSentences.pluralVariants, hs, he, hc],
      by simp [WordForms.pluralVariants, he, hc]⟩
  · intro he
    simp [WordForms.pluralVariants, he]
  · simp [ExtractSentences.get_word_variants, hnot2]
  · simp [WordForms.get_word_variants, hnot2]

/-- Witness for C5 amended, at `"box"` (x-ending) and `"city"`
(consonant+y). -/
theorem plural_rules_witness :
    ExtractSentences.pluralVariants "box" = ["box" ++ "es"] ∧
      WordForms.pluralVariants "city" = [strDropRight "city" 1 ++ "ies"] :=
  ⟨(plural_rules "box" (by decide)).2.1 (by decide) (by decide),
    ((plural_rules "city" (by decide)).2.2.1 (by decide) (by decide)).2⟩

/-- C6: `lemmatize_word` is a function of its token and the two injected
WordNet lookups (hence deterministic and total).  The curated exception table
takes precedence over any rule-based result (in particular `"ground"` maps to
`"ground"` whatever the injected lemmatizer does); otherwise the verb lemma is
returned when it differs from the input, has length > 1, and the noun lemma is
unchanged or of length ≤ 2; otherwise the noun lemma when it differs from the
input; otherwise the verb lemma. -/
theorem lemmatize_word_spec (nl vl : String → String) (w : String) :
    (∀ b, ExtractWords.LEMMA_EXCEPTIONS.lookup w = some b →
      ExtractWords.lemmatize_word nl vl w = b) ∧
    (ExtractWords.LEMMA_EXCEPTIONS.lookup w = none →
      (((vl w ≠ w ∧ 1 < (vl w).length) ∧ (nl w = w ∨ (nl w).length ≤ 2)) →
        ExtractWords.lemmatize_word nl vl w = vl w) ∧
      (¬ ((vl w ≠ w ∧ 1 < (vl w).length) ∧ (nl w = w ∨ (nl w).length ≤ 2)) →
        nl w ≠ w → ExtractWords.lemmatize_word nl vl w = nl w) ∧
      (¬ ((vl w ≠ w ∧ 1 < (vl w).length) ∧ (nl w = w ∨ (nl w).length ≤ 2)) →
        nl w = w → ExtractWords.lemmatize_word nl vl w = vl w)) ∧
    ExtractWords.lemmatize_word nl vl "ground" = "ground" := by
  refine ⟨?_, ?_, ?_⟩
  · intro b hb
    unfold ExtractWords.lemmatize_word
    rw [hb]
  · intro hnone
    have hx : ExtractWords.lemmatize_word nl vl w =
        (if (vl w ≠ w ∧ 1 < (vl w).length) ∧ (nl w = w ∨ (nl w).length ≤ 2) then vl w
          else if nl w ≠ w then nl w else vl w) := by
      unfold ExtractWords.lemmatize_word
      rw [hnone]
    refine ⟨fun hc => ?_, fun hc hn => ?_, fun hc hn => ?_⟩
    · rw [hx, if_pos hc]
    · rw [hx, if_neg hc, if_pos hn]
    · rw [hx, if_neg hc, if_neg (by simp [hn])]
  · unfold ExtractWords.lemmatize_word
    rfl

/-- Witness for C6: the verb-preference branch at `"was"` (with the WordNet
behaviour injected) and the exception branch at `"found"`. -/
theorem lemmatize_word_spec_witness :
    ExtractWords.lemmatize_word (fun _ => "wa") (fun _ => "be") "was" = "be" ∧
      ExtractWords.lemmatize_word (fun s => s) (fun s => s) "found" = "find" :=
  ⟨((lemmatize_word_spec (fun _ => "wa") (fun _ => "be") "was").2.1 (by decide)).1 (by decide),
    (lemmatize_word_spec (fun s => s) (fun s => s) "found").1 "find" (by decide)⟩

/-- Counterexample to C8 as stated: the ordinary English letter sequences
`"liv"` and `"did"` are NOT classified as numeric — the strict inner
Roman-numeral pattern of line 128 rejects them, so they are counted, not
skipped. -/
theorem roman_false_positive_counterexample :
    ExtractWords.is_numeric_word "liv" = false ∧
      ExtractWords.is_numeric_word "did" = false := by decide

/-- C8 amended: a short lowercase token of Roman-numeral letters (length ≤ 4)
is classified as numeric only when it also matches the strict single-group
Roman-numeral pattern of line 128; `"liv"` and `"did"` fail that pattern, so
`extract_words` lemmatizes and counts them instead of tallying them as
skipped, while strict matches such as `"xl"` are skipped and tallied. -/
theorem roman_numeral_strict_filter (nl vl : String → String)
    (st : (String → Nat) × Nat) (w : String) :
    (ExtractWords.is_numeric_word w = true →
      ExtractWords.extract_words_step nl vl st w = (st.1, st.2 + 1)) ∧
    (ExtractWords.is_numeric_word w = false →
      ExtractWords.extract_words_step nl vl st w =
        (ExtractWords.bump st.1 (ExtractWords.lemmatize_word nl vl w), st.2)) ∧
    ((!w.data.isEmpty && w.data.all ExtractWords.ROMAN_CHARS.contains) = true →
      w.length ≤ 4 →
      ExtractWords.isDigitStr w = false → ExtractWords.isOrdinal w = false →
      ExtractWords.hasDigitFraction w.data = false →
      ExtractWords.is_numeric_word w = ExtractWords.STRICT_ROMAN_FORMS.contains w) ∧
    ExtractWords.is_numeric_word "liv" = false ∧
    ExtractWords.is_numeric_word "did" = false ∧
    ExtractWords.is_numeric_word "xl" = true := by
  refine ⟨?_, ?_, ?_, by decide, by decide, by decide⟩
  · intro h
    unfold ExtractWords.extract_words_step
    rw [if_pos h]
  · intro h
    unfold ExtractWords.extract_words_step
    rw [if_neg (by simp [h])]
  · intro h1 h2 h3 h4 h5
    simp [ExtractWords.is_numeric_word, h1, h2, h3, h4, h5]

/-- Witness for C8 amended: the strict match `"xl"` is tallied as skipped, and
the false positive `"liv"` is counted. -/
theorem roman_numeral_strict_filter_witness :
    ExtractWords.extract_words_step (fun s => s) (fun s => s) (fun _ => 0, 0) "xl" =
      ((fun _ => (0 : Nat)), 1) ∧
    ExtractWords.extract_words_step (fun s => s) (fun s => s) (fun _ => 0, 0) "liv" =
      (ExtractWords.bump (fun _ => 0)
        (ExtractWords.lemmatize_word (fun s => s) (fun s => s) "liv"), 0) :=
  ⟨(roman_numeral_strict_filter (fun s => s) (fun s => s) (fun _ => 0, 0) "xl").1 (by decide),
    (roman_numeral_strict_filter (fun s => s) (fun s => s) (fun _ => 0, 0) "liv").2.1
      (by decide)⟩

/-- C10: atomicity of the insufficient-sentences branch.  When a word's
selection yields fewer than `MIN_SENTENCES_PER_WORD` ids, the loop body of
`extract_sentences` records `sentence_ids = []` for that word and leaves the
shared `used_sentences` set and the output sentence store exactly as they
were; when the threshold is met, the loop body records the selection and
updates the shared state through `recordSelected` only. -/
theorem insufficient_branch_atomicity (index : String → List ExtractSentences.Candidate)
    (st : ExtractSentences.ExtractState) (word : String) :
    ((ExtractSentences.select_sentences_for_word (index word) st.used_sentences).length <
        ExtractSentences.MIN_SENTENCES_PER_WORD →
      ExtractSentences.processWord index st word =
        { st with results := st.results ++ [(word, [])] }) ∧
    (ExtractSentences.MIN_SENTENCES_PER_WORD ≤
        (ExtractSentences.select_sentences_for_word (index word) st.used_sentences).length →
      ExtractSentences.processWord index st word =
        { ExtractSentences.recordSelected st
            (ExtractSentences.select_sentences_for_word (index word) st.used_sentences) with
          results :=
            (ExtractSentences.recordSelected st
              (ExtractSentences.select_sentences_for_word (index word) st.used_sentences)).results
              ++ [(word,
                ExtractSentences.select_sentences_for_word (index word) st.used_sentences)] })
    := by
  constructor
  · intro h
    unfold ExtractSentences.processWord
    rw [if_neg (Nat.not_le.mpr h)]
  · intro h
    unfold ExtractSentences.processWord
    rw [if_pos h]

/-- Witness for C10: a word with an empty candidate list is recorded with `[]`
and the state is otherwise untouched. -/
theorem insufficient_branch_atomicity_witness :
    ExtractSentences.processWord (fun _ => []) ⟨["u1"], ["u1"], [("w0", ["u1"])]⟩ "w1" =
      ⟨["u1"], ["u1"], [("w0", ["u1"]), ("w1", [])]⟩ :=
  (insufficient_branch_atomicity (fun _ => []) ⟨["u1"], ["u1"], [("w0", ["u1"])]⟩ "w1").1
    (by decide)

/-! Structural lemmas for `select_sentences_for_word`. -/

open ExtractSentences

theorem processWord_of_lt (index : String → List Candidate) (st : ExtractState) (word : String)
    (h : (select_sentences_for_word (index word) st.used_sentences).length <
      MIN_SENTENCES_PER_WORD) :
    processWord index st word = { st with results := st.results ++ [(word, [])] } := by
  unfold processWord
  rw [if_neg (Nat.not_le.mpr h)]

theorem processWord_of_ge (index : String → List Candidate) (st : ExtractState) (word : String)
    (h : MIN_SENTENCES_PER_WORD ≤
      (select_sentences_for_word (index word) st.used_sentences).length) :
    processWord index st word =
      { recordSelected st (select_sentences_for_word (index word) st.used_sentences) with
        results :=
          (recordSelected st
            (select_sentences_for_word (index word) st.used_sentences)).results ++
            [(word, select_sentences_for_word (index word) st.used_sentences)] } := by
  unfold processWord
  rw [if_pos h]

theorem recordSelected_results (ids : List String) (st : ExtractState) :
    (recordSelected st ids).results = st.results := by
  induction ids generalizing st with
  | nil => rfl
  | cons i rest ih =>
    show (recordSelected _ rest).results = _
    rw [ih]

theorem firstPass_length_le (l : List Candidate) (sel books : List String)
    (h : sel.length ≤ MAX_SENTENCES_PER_WORD) :
    (firstPass l sel books).length ≤ MAX_SENTENCES_PER_WORD := by
  induction l generalizing sel books with
  | nil => simpa [firstPass]
  | cons c rest ih =>
    unfold firstPass
    by_cases h5 : MAX_SENTENCES_PER_WORD ≤ sel.length
    · rw [if_pos h5]; exact h
    · rw [if_neg h5]
      by_cases hb : c.book ∈ books
      · rw [if_pos hb]; exact ih sel books h
      · rw [if_neg hb]
        refine ih _ _ ?_
        have hlt : sel.length < MAX_SENTENCES_PER_WORD := Nat.not_le.mp h5
        simpa using Nat.succ_le_of_lt hlt

theorem secondPass_length_le (l : List Candidate) (sel : List String)
    (h : sel.length ≤ MAX_SENTENCES_PER_WORD) :
    (secondPass l sel).length ≤ MAX_SENTENCES_PER_WORD := by
  induction l generalizing sel with
  | nil => simpa [secondPass]
  | cons c rest ih =>
    unfold secondPass
    by_cases h5 : MAX_SENTENCES_PER_WORD ≤ sel.length
    · rw [if_pos h5]; exact h
    · rw [if_neg h5]
      by_cases hc : c.id ∈ sel
      · rw [if_pos hc]; exact ih sel h
      · rw [if_neg hc]
        refine ih _ ?_
        have hlt : sel.length < MAX_SENTENCES_PER_WORD := Nat.not_le.mp h5
        simpa using Nat.succ_le_of_lt hlt

theorem firstPass_prefix (l : List Candidate) (sel books : List String) :
    ∃ ext, firstPass l sel books = sel ++ ext := by
  induction l generalizing sel books with
  | nil => exact ⟨[], by simp [firstPass]⟩
  | cons c rest ih =>
    unfold firstPass
    by_cases h5 : MAX_SENTENCES_PER_WORD ≤ sel.length
    · rw [if_pos h5]; exact ⟨[], by simp⟩
    · rw [if_neg h5]
      by_cases hb : c.book ∈ books
      · rw [if_pos hb]; exact ih sel books
      · rw [if_neg hb]
        obtain ⟨ext, hext⟩ := ih (sel ++ [c.id]) (books ++ [c.book])
        exact ⟨[c.id] ++ ext, by simp [hext]⟩

theorem secondPass_prefix (l : List Candidate) (sel : List String) :
    ∃ ext, secondPass l sel = sel ++ ext := by
  induction l generalizing sel with
  | nil => exact ⟨[], by simp [secondPass]⟩
  | cons c rest ih =>
    unfold secondPass
    by_cases h5 : MAX_SENTENCES_PER_WORD ≤ sel.length
    · rw [if_pos h5]; exact ⟨[], by simp⟩
    · rw [if_neg h5]
      by_cases hc : c.id ∈ sel
      · rw [if_pos hc]; exact ih sel
      · rw [if_neg hc]
        obtain ⟨ext, hext⟩ := ih (sel ++ [c.id])
        exact ⟨[c.id] ++ ext, by simp [hext]⟩

theorem firstPass_subset (l : List Candidate) (sel books : List String) :
    ∀ x ∈ firstPass l sel books, x ∈ sel ∨ x ∈ l.map Candidate.id := by
  induction l generalizing sel books with
  | nil =>
    intro x hx
    exact Or.inl (by simpa [firstPass] using hx)
  | cons c rest ih =>
    intro x hx
    unfold firstPass at hx
    by_cases h5 : MAX_SENTENCES_PER_WORD ≤ sel.length
    · rw [if_pos h5] at hx; exact Or.inl hx
    · rw [if_neg h5] at hx
      by_cases hb : c.book ∈ books
      · rw [if_pos hb] at hx
        rcases ih sel books x hx with h | h
        · exact Or.inl h
        · exact Or.inr (by simp [h])
      · rw [if_neg hb] at hx
        rcases ih _ _ x hx with h | h
        · rcases List.mem_append.mp h with h | h
          · exact Or.inl h
          · simp at h
            exact Or.inr (by simp [h])
        · exact Or.inr (by simp [h])

theorem secondPass_subset (l : List Candidate) (sel : List String) :
    ∀ x ∈ secondPass l sel, x ∈ sel ∨ x ∈ l.map Candidate.id := by
  induction l generalizing sel with
  | nil =>
    intro x hx
    exact Or.inl (by simpa [secondPass] using hx)
  | cons c rest ih =>
    intro x hx
    unfold secondPass at hx
    by_cases h5 : MAX_SENTENCES_PER_WORD ≤ sel.length
    · rw [if_pos h5] at hx; exact Or.inl hx
    · rw [if_neg h5] at hx
      by_cases hc : c.id ∈ sel
      · rw [if_pos hc] at hx
        rcases ih sel x hx with h | h
        · exact Or.inl h
        · exact Or.inr (by simp [h])
      · rw [if_neg hc] at hx
        rcases ih _ x hx with h | h
        · rcases List.mem_append.mp h with h | h
          · exact Or.inl h
          · simp at h
            exact Or.inr (by simp [h])
        · exact Or.inr (by simp [h])

theorem secondPass_covers (l : List Candidate) (sel : List String)
    (hlen : sel.length ≤ MAX_SENTENCES_PER_WORD) :
    ∀ c ∈ l, c.id ∈ secondPass l sel ∨
      (secondPass l sel).length = MAX_SENTENCES_PER_WORD := by
  induction l generalizing sel with
  | nil =>
    intro c hc
    simp at hc
  | cons d rest ih =>
    intro c hc
    unfold secondPass
    by_cases h5 : MAX_SENTENCES_PER_WORD ≤ sel.length
    · rw [if_pos h5]
      exact Or.inr (Nat.le_antisymm hlen h5)
    · rw [if_neg h5]
      have hlt : sel.length < MAX_SENTENCES_PER_WORD := Nat.not_le.mp h5
      by_cases hd : d.id ∈ sel
      · rw [if_pos hd]
        rcases List.mem_cons.mp hc with h | h
        · subst h
          obtain ⟨ext, hext⟩ := secondPass_prefix rest sel
          exact Or.inl (by rw [hext]; exact List.mem_append_left _ hd)
        · exact ih sel hlen c h
      · rw [if_neg hd]
        have hlen' : (sel ++ [d.id]).length ≤ MAX_SENTENCES_PER_WORD := by
          simpa using Nat.succ_le_of_lt hlt
        rcases List.mem_cons.mp hc with h | h
        · subst h
          obtain ⟨ext, hext⟩ := secondPass_prefix rest (sel ++ [c.id])
          refine Or.inl ?_
          rw [hext]
          exact List.mem_append_left _ (by simp)
        · exact ih _ hlen' c h

theorem secondPass_nodup (l : List Candidate) (sel : List String) (h : sel.Nodup) :
    (secondPass l sel).Nodup := by
  induction l generalizing sel with
  | nil => simpa [secondPass]
  | cons c rest ih =>
    unfold secondPass
    by_cases h5 : MAX_SENTENCES_PER_WORD ≤ sel.length
    · rw [if_pos h5]; exact h
    · rw [if_neg h5]
      by_cases hc : c.id ∈ sel
      · rw [if_pos hc]; exact ih sel h
      · rw [if_neg hc]
        refine ih _ (List.Nodup.append h (List.nodup_singleton _) ?_)
        intro x hx hy
        simp at hy
        subst hy
        exact hc hx

theorem firstPass_nodup (l : List Candidate) (sel books : List String)
    (hwf : ∀ c ∈ l, ∀ c' ∈ l, c.id = c'.id → c.book = c'.book)
    (hlink : ∀ c ∈ l, c.id ∈ sel → c.book ∈ books)
    (h : sel.Nodup) :
    (firstPass l sel books).Nodup := by
  induction l generalizing sel books with
  | nil => simpa [firstPass]
  | cons c rest ih =>
    unfold firstPass
    by_cases h5 : MAX_SENTENCES_PER_WORD ≤ sel.length
    · rw [if_pos h5]; exact h
    · rw [if_neg h5]
      by_cases hb : c.book ∈ books
      · rw [if_pos hb]
        exact ih _ _ (fun a ha a' ha' => hwf a (by simp [ha]) a' (by simp [ha']))
          (fun a ha => hlink a (by simp [ha])) h
      · rw [if_neg hb]
        have hcid : c.id ∉ sel := fun hmem => hb (hlink c (by simp) hmem)
        refine ih _ _ (fun a ha a' ha' => hwf a (by simp [ha]) a' (by simp [ha'])) ?_ ?_
        · intro a ha hmem
          rcases List.mem_append.mp hmem with hm | hm
          · exact List.mem_append_left _ (hlink a (by simp [ha]) hm)
          · simp at hm
            have hab : a.book = c.book := hwf a (by simp [ha]) c (by simp) hm
            rw [hab]
            simp
        · refine List.Nodup.append h (List.nodup_singleton _) ?_
          intro x hx hy
          simp at hy
          subst hy
          exact hcid hx

theorem sortCandidates_perm (used : List String) (cands : List Candidate) :
    List.Perm (sortCandidates used cands) cands :=
  List.perm_insertionSort _ _

theorem select_length_le (cands : List Candidate) (used : List String) :
    (select_sentences_for_word cands used).length ≤ MAX_SENTENCES_PER_WORD := by
  unfold select_sentences_for_word
  by_cases h : cands.isEmpty
  · rw [if_pos h]
    simp [MAX_SENTENCES_PER_WORD]
  · rw [if_neg h]
    exact secondPass_length_le _ _ (firstPass_length_le _ _ _ (by simp))

theorem select_subset (cands : List Candidate) (used : List String) :
    ∀ x ∈ select_sentences_for_word cands used, x ∈ cands.map Candidate.id := by
  unfold select_sentences_for_word
  by_cases h : cands.isEmpty
  · rw [if_pos h]
    intro x hx
    simp at hx
  · rw [if_neg h]
    intro x hx
    have hperm := (sortCandidates_perm used cands).map Candidate.id
    rcases secondPass_subset _ _ x hx with h1 | h1
    · rcases firstPass_subset _ _ _ x h1 with h2 | h2
      · simp at h2
      · exact hperm.mem_iff.mp h2
    · exact hperm.mem_iff.mp h1

theorem select_nodup (cands : List Candidate) (used : List String)
    (hwf : ∀ c ∈ cands, ∀ c' ∈ cands, c.id = c'.id → c.book = c'.book) :
    (select_sentences_for_word cands used).Nodup := by
  unfold select_sentences_for_word
  by_cases h : cands.isEmpty
  · rw [if_pos h]; exact List.nodup_nil
  · rw [if_neg h]
    have hperm := sortCandidates_perm used cands
    refine secondPass_nodup _ _ (firstPass_nodup _ [] []
      (fun c hc c' hc' => hwf c (hperm.mem_iff.mp hc) c' (hperm.mem_iff.mp hc'))
      (by simp) List.nodup_nil)

theorem select_covers (cands : List Candidate) (used : List String) :
    ∀ c ∈ cands, c.id ∈ select_sentences_for_word cands used ∨
      (select_sentences_for_word cands used).length = MAX_SENTENCES_PER_WORD := by
  intro c hc
  unfold select_sentences_for_word
  have hne : ¬ cands.isEmpty := by
    cases cands with
    | nil => simp at hc
    | cons a rest => simp
  rw [if_neg hne]
  have hperm := sortCandidates_perm used cands
  exact secondPass_covers _ _ (firstPass_length_le _ _ _ (by simp)) c (hperm.mem_iff.mpr hc)

theorem select_length_eq (cands : List Candidate) (used : List String)
    (hwf : ∀ c ∈ cands, ∀ c' ∈ cands, c.id = c'.id → c.book = c'.book) :
    (select_sentences_for_word cands used).length =
      min MAX_SENTENCES_PER_WORD (cands.map Candidate.id).dedup.length := by
  by_cases h : cands.isEmpty
  · rw [List.isEmpty_iff] at h
    subst h
    simp [select_sentences_for_word]
  · have hnd := select_nodup cands used hwf
    have hsub : ∀ x ∈ select_sentences_for_word cands used,
        x ∈ (cands.map Candidate.id).dedup :=
      fun x hx => List.mem_dedup.mpr (select_subset cands used x hx)
    have hsp := List.subperm_of_subset hnd hsub
    have hle := hsp.length_le
    by_cases hfull :
        (select_sentences_for_word cands used).length = MAX_SENTENCES_PER_WORD
    · rw [hfull, Nat.min_eq_left (hfull ▸ hle)]
    · have hcov : ∀ x ∈ (cands.map Candidate.id).dedup,
          x ∈ select_sentences_for_word cands used := by
        intro x hx
        rw [List.mem_dedup, List.mem_map] at hx
        obtain ⟨c, hc, hcx⟩ := hx
        rcases select_covers cands used c hc with h1 | h1
        · rw [← hcx]; exact h1
        · exact absurd h1 hfull
      have hsp2 := List.subperm_of_subset (List.nodup_dedup _) hcov
      have heq := Nat.le_antisymm hle hsp2.length_le
      rw [heq, Nat.min_eq_right]
      rw [← heq]
      exact select_length_le cands used

/-- Counterexample to C9 as stated: quantified over EVERY candidate list, the
pairwise-distinct-ids part fails.  A list holding two records with the same id
but different books makes the diversity pass select the same id twice. -/
theorem selection_duplicate_id_counterexample :
    select_sentences_for_word [⟨"a", 40, "b1"⟩, ⟨"a", 41, "b2"⟩] [] = ["a", "a"] ∧
      ¬ (select_sentences_for_word [⟨"a", 40, "b1"⟩, ⟨"a", 41, "b2"⟩] []).Nodup := by
  decide

/-- C9 amended: for every candidate list and every used-sentences state the
selection has length at most `MAX_SENTENCES_PER_WORD`; and the selected
location ids are pairwise distinct whenever any two candidate records sharing
an id share a book — which holds for every list `build_inverted_index`
produces from a corpus without `generate_sentence_id` collisions, in
particular when several variants of one word occur in one verse (equal id,
equal book). -/
theorem selection_shape (cands : List Candidate) (used : List String) :
    (select_sentences_for_word cands used).length ≤ MAX_SENTENCES_PER_WORD ∧
      ((∀ c ∈ cands, ∀ c' ∈ cands, c.id = c'.id → c.book = c'.book) →
        (select_sentences_for_word cands used).Nodup) :=
  ⟨select_length_le cands used, fun hwf => select_nodup cands used hwf⟩

/-- Witness for C9 amended: duplicate records of one verse (equal id and
book, as produced by two variants of the same word) stay deduplicated. -/
theorem selection_shape_witness :
    (select_sentences_for_word [⟨"a", 40, "b"⟩, ⟨"a", 40, "b"⟩, ⟨"c", 50, "b"⟩] []).length ≤
        MAX_SENTENCES_PER_WORD ∧
      (select_sentences_for_word [⟨"a", 40, "b"⟩, ⟨"a", 40, "b"⟩, ⟨"c", 50, "b"⟩] []).Nodup :=
  ⟨(selection_shape [⟨"a", 40, "b"⟩, ⟨"a", 40, "b"⟩, ⟨"c", 50, "b"⟩] []).1,
    (selection_shape [⟨"a", 40, "b"⟩, ⟨"a", 40, "b"⟩, ⟨"c", 50, "b"⟩] []).2 (by decide)⟩

/-- C2: the all-or-nothing sentence threshold.  For every vocabulary word
processed by the per-word loop of `extract_sentences` (whose candidate lists,
coming from `build_inverted_index`, give records sharing an id the same book),
the recorded `sentence_ids` are empty exactly when fewer than
`MIN_SENTENCES_PER_WORD` distinct candidate locations exist for the word;
otherwise the full selection, of size
`min MAX_SENTENCES_PER_WORD (number of distinct candidate locations)`,
is recorded. -/
theorem all_or_nothing_threshold (index : String → List Candidate)
    (st : ExtractState) (word : String)
    (hwf : ∀ c ∈ index word, ∀ c' ∈ index word, c.id = c'.id → c.book = c'.book) :
    ∃ out, (processWord index st word).results = st.results ++ [(word, out)] ∧
      (out = [] ↔
        ((index word).map Candidate.id).dedup.length < MIN_SENTENCES_PER_WORD) ∧
      (MIN_SENTENCES_PER_WORD ≤ ((index word).map Candidate.id).dedup.length →
        out = select_sentences_for_word (index word) st.used_sentences ∧
        out.length =
          min MAX_SENTENCES_PER_WORD ((index word).map Candidate.id).dedup.length) := by
  have hlen := select_length_eq (index word) st.used_sentences hwf
  by_cases hmin : MIN_SENTENCES_PER_WORD ≤
      (select_sentences_for_word (index word) st.used_sentences).length
  · refine ⟨select_sentences_for_word (index word) st.used_sentences, ?_, ?_, ?_⟩
    · rw [processWord_of_ge index st word hmin]
      simp [recordSelected_results]
    · constructor
      · intro hout
        rw [hout] at hmin
        exact absurd hmin (by decide)
      · intro hD
        rw [hlen] at hmin
        exact absurd (Nat.le_trans hmin (Nat.min_le_right _ _)) (Nat.not_le.mpr hD)
    · intro _
      exact ⟨rfl, hlen⟩
  · refine ⟨[], ?_, ?_, ?_⟩
    · rw [processWord_of_lt index st word (Nat.not_le.mp hmin)]
    · refine ⟨fun _ => ?_, fun _ => rfl⟩
      rw [hlen] at hmin
      by_contra hcon
      exact hmin (Nat.le_min.mpr ⟨by decide, Nat.not_lt.mp hcon⟩)
    · intro hD
      rw [hlen] at hmin
      exact absurd (Nat.le_min.mpr ⟨by decide, hD⟩) hmin

/-- Witness for C2, at a word with a single distinct candidate location
(below the threshold, so `[]` is recorded). -/
theorem all_or_nothing_threshold_witness :
    ∃ out,
      (processWord (fun _ => [⟨"a", 40, "b"⟩]) ⟨[], [], []⟩ "w").results =
        (⟨[], [], []⟩ : ExtractState).results ++ [("w", out)] ∧
      (out = [] ↔
        (([⟨"a", 40, "b"⟩] : List Candidate).map Candidate.id).dedup.length <
          MIN_SENTENCES_PER_WORD) ∧
      (MIN_SENTENCES_PER_WORD ≤
          (([⟨"a", 40, "b"⟩] : List Candidate).map Candidate.id).dedup.length →
        out = select_sentences_for_word [⟨"a", 40, "b"⟩]
          (⟨[], [], []⟩ : ExtractState).used_sentences ∧
        out.length = min MAX_SENTENCES_PER_WORD
          (([⟨"a", 40, "b"⟩] : List Candidate).map Candidate.id).dedup.length) :=
  all_or_nothing_threshold (fun _ => [⟨"a", 40, "b"⟩]) ⟨[], [], []⟩ "w" (by decide)

/-- Counterexample to C1 as stated: with two rank-ordered lemmas sharing the
same eligible candidate set of exactly `MAX_SENTENCES_PER_WORD` distinct
locations, the second lemma's selection does NOT exclude the ids the first
selected, nor does it return fewer than `MAX_SENTENCES_PER_WORD` entries: it
returns exactly the same five ids — `used_sentences` only deprioritizes ids
in the sort, it never excludes them. -/
theorem disjointness_bias_counterexample :
    (scenarioCandidates.map Candidate.id).Nodup ∧
      scenarioCandidates.length = MAX_SENTENCES_PER_WORD ∧
      (extract_sentences (fun _ => scenarioCandidates) ["w1", "w2"]).results =
        [("w1", ["s1", "s2", "s3", "s4", "s5"]), ("w2", ["s1", "s2", "s3", "s4", "s5"])] ∧
      (["s1", "s2", "s3", "s4", "s5"] : List String).length = MAX_SENTENCES_PER_WORD ∧
      "s1" ∈ (["s1", "s2", "s3", "s4", "s5"] : List String) := by
  decide

/-- The selection is a permutation of the candidates' ids whenever those ids
are distinct and no more numerous than `MAX_SENTENCES_PER_WORD` — for any
used-sentences state. -/
theorem select_perm (cands : List Candidate) (used : List String)
    (hn : (cands.map Candidate.id).Nodup)
    (hle : cands.length ≤ MAX_SENTENCES_PER_WORD) :
    List.Perm (select_sentences_for_word cands used) (cands.map Candidate.id) := by
  have hwf : ∀ c ∈ cands, ∀ c' ∈ cands, c.id = c'.id → c.book = c'.book := by
    intro c hc c' hc' hid
    have hcc : c = c' := List.inj_on_of_nodup_map hn hc hc' hid
    rw [hcc]
  have hnd := select_nodup cands used hwf
  have hsp := List.subperm_of_subset hnd (fun x hx => select_subset cands used x hx)
  refine hsp.perm_of_length_le ?_
  have hlen := select_length_eq cands used hwf
  rw [List.dedup_eq_self.mpr hn, List.length_map] at hlen
  rw [List.length_map, hlen]
  exact Nat.le_min.mpr ⟨hle, Nat.le_refl _⟩

/-- C1 amended: when two rank-ordered lemmas have identical candidate lists of
exactly `MAX_SENTENCES_PER_WORD` distinct locations, processing the first
before the second makes BOTH select all `MAX_SENTENCES_PER_WORD` ids: the ids
the first lemma adds to `used_sentences` are only deprioritized in the second
lemma's sort, never excluded, so the second lemma's selection contains every
id the first selected and has exactly `MAX_SENTENCES_PER_WORD` entries. -/
theorem shared_candidates_reselected (index : String → List Candidate)
    (cands : List Candidate) (w1 w2 : String)
    (hi1 : index w1 = cands) (hi2 : index w2 = cands)
    (hn : (cands.map Candidate.id).Nodup)
    (hlen : cands.length = MAX_SENTENCES_PER_WORD) :
    ∃ ids1 ids2,
      (extract_sentences index [w1, w2]).results = [(w1, ids1), (w2, ids2)] ∧
      ids1.length = MAX_SENTENCES_PER_WORD ∧
      ids2.length = MAX_SENTENCES_PER_WORD ∧
      ∀ i, i ∈ ids1 ↔ i ∈ ids2 := by
  have hle : cands.length ≤ MAX_SENTENCES_PER_WORD := Nat.le_of_eq hlen
  have hstep : extract_sentences index [w1, w2] =
      processWord index (processWord index ⟨[], [], []⟩ w1) w2 := rfl
  have hperm1 : List.Perm
      (select_sentences_for_word (index w1)
        (⟨[], [], []⟩ : ExtractState).used_sentences)
      (cands.map Candidate.id) := by
    rw [hi1]
    exact select_perm cands _ hn hle
  have hlen1 : (select_sentences_for_word (index w1)
      (⟨[], [], []⟩ : ExtractState).used_sentences).length = MAX_SENTENCES_PER_WORD := by
    rw [hperm1.length_eq, List.length_map, hlen]
  have hmin1 : MIN_SENTENCES_PER_WORD ≤ (select_sentences_for_word (index w1)
      (⟨[], [], []⟩ : ExtractState).used_sentences).length := by
    rw [hlen1]
    decide
  have e1 := processWord_of_ge index ⟨[], [], []⟩ w1 hmin1
  have hperm2 : List.Perm
      (select_sentences_for_word (index w2)
        (processWord index ⟨[], [], []⟩ w1).used_sentences)
      (cands.map Candidate.id) := by
    rw [hi2]
    exact select_perm cands _ hn hle
  have hlen2 : (select_sentences_for_word (index w2)
      (processWord index ⟨[], [], []⟩ w1).used_sentences).length =
      MAX_SENTENCES_PER_WORD := by
    rw [hperm2.length_eq, List.length_map, hlen]
  have hmin2 : MIN_SENTENCES_PER_WORD ≤ (select_sentences_for_word (index w2)
      (processWord index ⟨[], [], []⟩ w1).used_sentences).length := by
    rw [hlen2]
    decide
  have e2 := processWord_of_ge index (processWord index ⟨[], [], []⟩ w1) w2 hmin2
  refine ⟨select_sentences_for_word (index w1)
      (⟨[], [], []⟩ : ExtractState).used_sentences,
    select_sentences_for_word (index w2)
      (processWord index ⟨[], [], []⟩ w1).used_sentences, ?_, hlen1, hlen2, ?_⟩
  · rw [hstep, e2, recordSelected_results]
    rw [e1]
    simp [recordSelected_results]
  · intro i
    rw [hperm1.mem_iff, hperm2.mem_iff]

/-- Witness for C1 amended, at the concrete scenario of the counterexample. -/
theorem shared_candidates_reselected_witness :
    ∃ ids1 ids2,
      (extract_sentences (fun _ => scenarioCandidates) ["w1", "w2"]).results =
        [("w1", ids1), ("w2", ids2)] ∧
      ids1.length = MAX_SENTENCES_PER_WORD ∧
      ids2.length = MAX_SENTENCES_PER_WORD ∧
      ∀ i, i ∈ ids1 ↔ i ∈ ids2 :=
  shared_candidates_reselected (fun _ => scenarioCandidates) scenarioCandidates "w1" "w2"
    rfl rfl (by decide) (by decide)

/-! Invariant lemmas for the corpus scan of `build_inverted_index`. -/

theorem appendCandidate_mem (m : List (String × List Candidate)) (k : String) (c : Candidate)
    (p : String × List Candidate) (hp : p ∈ appendCandidate m k c)
    (x : Candidate) (hx : x ∈ p.2) :
    (∃ q ∈ m, x ∈ q.2) ∨ x = c := by
  unfold appendCandidate at hp
  by_cases h : (m.lookup k).isSome
  · rw [if_pos h] at hp
    rw [List.mem_map] at hp
    obtain ⟨q, hq, hqe⟩ := hp
    by_cases hk : q.1 = k
    · rw [if_pos hk] at hqe
      subst hqe
      simp only [] at hx
      rcases List.mem_append.mp hx with h1 | h1
      · exact Or.inl ⟨q, hq, h1⟩
      · simp at h1
        exact Or.inr h1
    · rw [if_neg hk] at hqe
      subst hqe
      exact Or.inl ⟨q, hq, hx⟩
  · rw [if_neg h] at hp
    rcases List.mem_append.mp hp with h1 | h1
    · exact Or.inl ⟨p, h1, hx⟩
    · simp at h1
      rw [h1] at hx
      simp at hx
      exact Or.inr hx

theorem tokenFold_preserves (av : List (String × String)) (sid : String)
    (tokens : List String) (cand : Candidate) (hcand : cand.id ≠ sid)
    (m : List (String × List Candidate))
    (hm : ∀ p ∈ m, ∀ x ∈ p.2, x.id ≠ sid) :
    ∀ p ∈ tokens.foldl (fun acc sent_word =>
        match av.lookup sent_word with
        | some original_word => appendCandidate acc original_word cand
        | none => acc) m,
      ∀ x ∈ p.2, x.id ≠ sid := by
  induction tokens generalizing m with
  | nil => exact hm
  | cons t rest ih =>
    rw [List.foldl_cons]
    refine ih _ ?_
    cases h : av.lookup t with
    | none =>
      simpa [h] using hm
    | some ow =>
      simp only [h]
      intro p hp x hx
      rcases appendCandidate_mem m ow cand p hp x hx with ⟨q, hq, hxq⟩ | he
      · exact hm q hq x hxq
      · rw [he]
        exact hcand

theorem processVerse_preserves (av : List (String × String)) (sid : String)
    (st : IndexState) (v : Verse)
    (hst1 : st.all_sentences.lookup sid = none)
    (hst2 : ∀ p ∈ st.word_to_sentences, ∀ c ∈ p.2, c.id ≠ sid)
    (hv : generate_sentence_id v.book v.chapter v.verse = sid →
      (v.text.length < MIN_SENTENCE_LENGTH ∨ MAX_SENTENCE_LENGTH < v.text.length)) :
    ((processVerse av st v).all_sentences.lookup sid = none) ∧
    (∀ p ∈ (processVerse av st v).word_to_sentences, ∀ c ∈ p.2, c.id ≠ sid) := by
  unfold processVerse
  by_cases hlen : MAX_SENTENCE_LENGTH < v.text.length ∨ v.text.length < MIN_SENTENCE_LENGTH
  · rw [if_pos hlen]
    exact ⟨hst1, hst2⟩
  · rw [if_neg hlen]
    have hsid : generate_sentence_id v.book v.chapter v.verse ≠ sid := by
      intro he
      rcases hv he with h | h
      · exact hlen (Or.inr h)
      · exact hlen (Or.inl h)
    refine ⟨?_, ?_⟩
    · exact (lookup_assign_ne _ sid _ _ (fun e => hsid e.symm)).trans hst1
    · exact tokenFold_preserves av sid _ _ hsid _ hst2

theorem build_excludes_aux (av : List (String × String)) (sid : String)
    (vs : List Verse) (st : IndexState)
    (hst1 : st.all_sentences.lookup sid = none)
    (hst2 : ∀ p ∈ st.word_to_sentences, ∀ c ∈ p.2, c.id ≠ sid)
    (hvs : ∀ v ∈ vs, generate_sentence_id v.book v.chapter v.verse = sid →
      (v.text.length < MIN_SENTENCE_LENGTH ∨ MAX_SENTENCE_LENGTH < v.text.length)) :
    ((vs.foldl (processVerse av) st).all_sentences.lookup sid = none) ∧
    (∀ p ∈ (vs.foldl (processVerse av) st).word_to_sentences, ∀ c ∈ p.2, c.id ≠ sid) := by
  induction vs generalizing st with
  | nil => exact ⟨hst1, hst2⟩
  | cons v rest ih =>
    rw [List.foldl_cons]
    obtain ⟨h1, h2⟩ := processVerse_preserves av sid st v hst1 hst2 (hvs v (by simp))
    exact ih _ h1 h2 (fun u hu => hvs u (by simp [hu]))

/-- C7: length-filter exclusion.  For every corpus verse whose raw text length
is strictly below `MIN_SENTENCE_LENGTH` or strictly above
`MAX_SENTENCE_LENGTH` (and whose location id is not also generated by some
in-bounds verse), the verse's location id is absent from the sentence store
produced by `build_inverted_index` and appears in no word's candidate list. -/
theorem length_filter_exclusion (bible : Bible) (vocabulary_words : List String)
    (v : Verse) (hv : v ∈ allVerses bible)
    (hout : v.text.length < MIN_SENTENCE_LENGTH ∨ MAX_SENTENCE_LENGTH < v.text.length)
    (hnocol : ∀ u ∈ allVerses bible,
      generate_sentence_id u.book u.chapter u.verse =
        generate_sentence_id v.book v.chapter v.verse →
      (u.text.length < MIN_SENTENCE_LENGTH ∨ MAX_SENTENCE_LENGTH < u.text.length)) :
    ((build_inverted_index bible vocabulary_words).all_sentences.lookup
        (generate_sentence_id v.book v.chapter v.verse) = none) ∧
    (∀ p ∈ (build_inverted_index bible vocabulary_words).word_to_sentences,
      ∀ c ∈ p.2, c.id ≠ generate_sentence_id v.book v.chapter v.verse) := by
  unfold build_inverted_index
  refine build_excludes_aux _ _ _ _ rfl ?_ hnocol
  intro p hp
  simp at hp

/-- Witness for C7: a five-character verse is excluded from the index built
over a two-verse corpus. -/
theorem length_filter_exclusion_witness :
    ((build_inverted_index
        [("Gen", [("1", [("1", "short"),
          ("2", "In the beginning God created the heavens and the earth most gloriously forever")])])]
        ["god"]).all_sentences.lookup (generate_sentence_id "Gen" "1" "1") = none) ∧
    (∀ p ∈ (build_inverted_index
        [("Gen", [("1", [("1", "short"),
          ("2", "In the beginning God created the heavens and the earth most gloriously forever")])])]
        ["god"]).word_to_sentences,
      ∀ c ∈ p.2, c.id ≠ generate_sentence_id "Gen" "1" "1") :=
  length_filter_exclusion
    [("Gen", [("1", [("1", "short"),
      ("2", "In the beginning God created the heavens and the earth most gloriously forever")])])]
    ["god"] ⟨"Gen", "1", "1", "short"⟩ (by decide) (by decide) (by decide)
